import Mathlib

/-!
Shallow embedding of the runblock runner (package `runner`): template
expansion (`ExpandTemplate` over the regex `\{\{([^}]+)\}\}` and Go's
`ReplaceAllStringFunc`), command classification (`BuildCommand`,
`detectShell`), and block execution (`Runner.Run`, `Runner.RunAll`).
The CEL expression evaluator (the external cel-go library) is abstracted
as a function from the trimmed expression text to an outcome; the per-block
variable store `\x7blang, content, i\x7d` is threaded explicitly.
-/

namespace Runblock

/-- Go `unicode.IsSpace` (the Unicode White_Space property), used by
`strings.TrimSpace`. -/
def isGoSpace (c : Char) : Bool :=
  c.val = 9 || c.val = 10 || c.val = 11 || c.val = 12 || c.val = 13 || c.val = 32 ||
  c.val = 0x85 || c.val = 0xA0 || c.val = 0x1680 ||
  (0x2000 ≤ c.val && c.val ≤ 0x200A) ||
  c.val = 0x2028 || c.val = 0x2029 || c.val = 0x202F || c.val = 0x205F || c.val = 0x3000

/-- Go `strings.TrimSpace` on a character list: drop leading and trailing
white space. -/
def trimSpace (s : List Char) : List Char :=
  ((s.dropWhile isGoSpace).reverse.dropWhile isGoSpace).reverse

/-- Go `strings.TrimSpace` on strings. -/
def trimString (s : String) : String :=
  String.mk (trimSpace s.data)

/-- Outcome of compiling and evaluating one CEL expression (the three
fallible stages of the span callback in `ExpandTemplate`: `env.Compile`,
`env.Program`, `prg.Eval`), abstracting the external cel-go library.
`ok v` carries the `fmt.Sprintf("%v", out.Value())` rendering of the value. -/
inductive CelOutcome where
  | ok (v : String)
  | compileErr (msg : String)
  | programErr (msg : String)
  | evalErr (msg : String)
deriving DecidableEq, Repr

/-- One piece of a template as split by the regex scan of
`celExprReg.ReplaceAllStringFunc`: either a literal character (not part of
any match) or a matched span's raw content (the `[^}]+` capture). -/
inductive Seg where
  | lit (c : Char)
  | span (raw : List Char)
deriving DecidableEq, Repr

/-- Attempt the regex match `\{\{([^}]+)\}\}` right after a `\x7b\x7b`:
the capture is the maximal run of non-`\x7d` characters, which must be
nonempty and be followed by `\x7d\x7d`. Returns the capture and the
remainder after the match. -/
def spanSplit (rest : List Char) : Option (List Char × List Char) :=
  match rest.dropWhile (fun c => c ≠ '\x7d') with
  | r1 :: r2 :: tail =>
      if r1 = '\x7d' ∧ r2 = '\x7d' ∧ rest.takeWhile (fun c => c ≠ '\x7d') ≠ [] then
        some (rest.takeWhile (fun c => c ≠ '\x7d'), tail)
      else none
  | _ => none

theorem spanSplit_length {rest raw tail : List Char}
    (h : spanSplit rest = some (raw, tail)) : tail.length + 2 ≤ rest.length := by
  have hsfx : List.IsSuffix (rest.dropWhile (fun c => c ≠ '\x7d')) rest :=
    List.dropWhile_suffix _
  have hd := hsfx.length_le
  unfold spanSplit at h
  split at h
  next r1 r2 tail' heq =>
    split at h
    next hc =>
      simp only [Option.some.injEq, Prod.mk.injEq] at h
      obtain ⟨h1, h2⟩ := h
      subst h2
      rw [heq] at hd
      simp only [List.length_cons] at hd
      omega
    next hc => exact absurd h (by simp)
  next heq => exact absurd h (by simp)

/-- The left-to-right scan performed by
`celExprReg.ReplaceAllStringFunc(template, ...)` with
`celExprReg = \{\{([^}]+)\}\}`: non-overlapping leftmost matches become
`Seg.span` pieces, everything else stays literal. To keep the function
structurally recursive the scan carries fuel; every step shortens the
input, so any fuel exceeding the input length yields the full scan
(`tokenizeFuel_congr`). -/
def tokenizeFuel : Nat → List Char → List Seg
  | _, [] => []
  | 0, _ :: _ => []
  | fuel + 1, c :: cs =>
      if c = '\x7b' then
        match cs with
        | d :: rest =>
            if d = '\x7b' then
              match spanSplit rest with
              | some (raw, tail) => Seg.span raw :: tokenizeFuel fuel tail
              | none => Seg.lit c :: tokenizeFuel fuel cs
            else Seg.lit c :: tokenizeFuel fuel cs
        | [] => Seg.lit c :: tokenizeFuel fuel cs
      else Seg.lit c :: tokenizeFuel fuel cs

/-- The regex scan of a whole template. -/
def tokenize (l : List Char) : List Seg := tokenizeFuel (l.length + 1) l

theorem tokenizeFuel_congr :
    ∀ (f1 f2 : Nat) (l : List Char), l.length < f1 → l.length < f2 →
      tokenizeFuel f1 l = tokenizeFuel f2 l := by
  intro f1
  induction f1 with
  | zero => intro f2 l h1 h2; omega
  | succ g1 ih =>
      intro f2 l h1 h2
      cases f2 with
      | zero => omega
      | succ g2 =>
          cases l with
          | nil => rfl
          | cons c cs =>
              simp only [List.length_cons] at h1 h2
              by_cases hc : c = '\x7b'
              · subst hc
                cases cs with
                | nil =>
                    simp only [tokenizeFuel, if_pos rfl]
                | cons d ds =>
                    simp only [List.length_cons] at h1 h2
                    by_cases hd : d = '\x7b'
                    · subst hd
                      simp only [tokenizeFuel, if_pos rfl]
                      cases hss : spanSplit ds with
                      | some p =>
                          obtain ⟨raw, tail⟩ := p
                          have hl := spanSplit_length hss
                          show Seg.span raw :: tokenizeFuel g1 tail
                              = Seg.span raw :: tokenizeFuel g2 tail
                          rw [ih g2 tail (by omega) (by omega)]
                      | none =>
                          show Seg.lit '\x7b' :: tokenizeFuel g1 ('\x7b' :: ds)
                              = Seg.lit '\x7b' :: tokenizeFuel g2 ('\x7b' :: ds)
                          rw [ih g2 ('\x7b' :: ds)
                            (by simp only [List.length_cons]; omega)
                            (by simp only [List.length_cons]; omega)]
                    · simp only [tokenizeFuel, if_pos rfl, if_neg hd]
                      rw [ih g2 (d :: ds)
                        (by simp only [List.length_cons]; omega)
                        (by simp only [List.length_cons]; omega)]
              · simp only [tokenizeFuel, if_neg hc]
                rw [ih g2 cs (by omega) (by omega)]

/-- The matched text of a span: `\x7b\x7b` ++ raw ++ `\x7d\x7d`. -/
def matchText (raw : List Char) : List Char :=
  '\x7b' :: '\x7b' :: (raw ++ ['\x7d', '\x7d'])

/-- The error message `template compilation error for '\x7b\x7b%s\x7d\x7d': %w`. -/
def compileErrMsg (expr : List Char) (msg : String) : String :=
  "template compilation error for '\x7b\x7b" ++ String.mk expr ++ "\x7d\x7d': " ++ msg

/-- The error message `template program creation error for '\x7b\x7b%s\x7d\x7d': %w`. -/
def programErrMsg (expr : List Char) (msg : String) : String :=
  "template program creation error for '\x7b\x7b" ++ String.mk expr ++ "\x7d\x7d': " ++ msg

/-- The error message `template evaluation error for '\x7b\x7b%s\x7d\x7d': %w`. -/
def evalErrMsg (expr : List Char) (msg : String) : String :=
  "template evaluation error for '\x7b\x7b" ++ String.mk expr ++ "\x7d\x7d': " ++ msg

/-- The span callback of `ExpandTemplate` (lines 134-159): trim the capture,
compile and evaluate it; on success return the stringified value, on failure
return the original matched text and record the wrapped error. -/
def spanResult (env : String → CelOutcome) (raw : List Char) : List Char × Option String :=
  let expr := trimSpace raw
  match env (String.mk expr) with
  | .ok v => (v.data, none)
  | .compileErr m => (matchText raw, some (compileErrMsg expr m))
  | .programErr m => (matchText raw, some (programErrMsg expr m))
  | .evalErr m => (matchText raw, some (evalErrMsg expr m))

/-- Folding the span callback over the scanned pieces, with the Go closure
variable `expandErr`: a later failing span overwrites an earlier error, so
the error component is that of the last failing span. -/
def expandSegs (env : String → CelOutcome) : List Seg → List Char × Option String
  | [] => ([], none)
  | Seg.lit c :: segs =>
      let r := expandSegs env segs
      (c :: r.1, r.2)
  | Seg.span raw :: segs =>
      let p := spanResult env raw
      let r := expandSegs env segs
      (p.1 ++ r.1, match r.2 with
        | some e => some e
        | none => p.2)

/-- `ExpandTemplate(template, store)` with the CEL machinery abstracted to
`env` (the store is fixed inside `env`): replace every regex match by its
evaluated value; if any span failed, return `""` together with the recorded
(last) error, exactly as the Go function returns `("", expandErr)`. -/
def ExpandTemplate (env : String → CelOutcome) (template : String) : String × Option String :=
  let r := expandSegs env (tokenize template.data)
  match r.2 with
  | some e => ("", some e)
  | none => (String.mk r.1, none)

/-- The wrapped errors of the failing spans of a scanned template, in span
order. -/
def spanErrors (env : String → CelOutcome) (segs : List Seg) : List String :=
  segs.filterMap fun s =>
    match s with
    | Seg.lit _ => none
    | Seg.span raw => (spanResult env raw).2

/-- Splits a character list at the next occurrence of `\x7d\x7d`, returning
the characters strictly before it and the remainder after it. This follows
the claim's words for a span's content ("everything strictly between the
delimiters" up to "the next \x7d\x7d"), for comparison with the source's
regex scan. -/
def splitAtCloser : List Char → Option (List Char × List Char)
  | [] => none
  | c :: cs =>
      if c = '\x7d' ∧ cs.head? = some '\x7d' then some ([], cs.tail)
      else (splitAtCloser cs).map fun p => (c :: p.1, p.2)

theorem splitAtCloser_length (l : List Char) :
    ∀ {content r : List Char}, splitAtCloser l = some (content, r) →
      r.length + 2 ≤ l.length := by
  induction l with
  | nil => intro c r h; simp [splitAtCloser] at h
  | cons c cs ih =>
      intro content r h
      unfold splitAtCloser at h
      split at h
      next hc =>
        simp only [Option.some.injEq, Prod.mk.injEq] at h
        obtain ⟨h1, h2⟩ := h
        subst h2
        cases cs with
        | nil => simp at hc
        | cons d ds => simp only [List.length_cons, List.tail_cons]; omega
      next hc =>
        cases hsc : splitAtCloser cs with
        | none => rw [hsc] at h; simp at h
        | some p =>
            obtain ⟨c1, r1⟩ := p
            rw [hsc] at h
            simp only [Option.map_some', Option.some.injEq, Prod.mk.injEq] at h
            obtain ⟨h1, h2⟩ := h
            subst h2
            have := ih hsc
            simp only [List.length_cons]
            omega

/-- Template expansion exactly as the claim words it: every span runs from a
`\x7b\x7b` to the next `\x7d\x7d`, its content (whatever it is) is trimmed,
evaluated, and the whole span replaced by the result. Written from the
claim's words, for comparison with `ExpandTemplate`; fuel keeps the
recursion structural, every step shortens the input. -/
def expandClaimFuel (env : String → CelOutcome) : Nat → List Char → List Char × Option String
  | _, [] => ([], none)
  | 0, _ :: _ => ([], none)
  | fuel + 1, c :: cs =>
      if c = '\x7b' then
        match cs with
        | d :: rest =>
            if d = '\x7b' then
              match splitAtCloser rest with
              | some (content, tail) =>
                  let p := spanResult env content
                  let r := expandClaimFuel env fuel tail
                  (p.1 ++ r.1, match r.2 with
                    | some e => some e
                    | none => p.2)
              | none =>
                  let r := expandClaimFuel env fuel rest
                  (c :: d :: r.1, r.2)
            else
              let r := expandClaimFuel env fuel cs
              (c :: r.1, r.2)
        | [] =>
            let r := expandClaimFuel env fuel cs
            (c :: r.1, r.2)
      else
        let r := expandClaimFuel env fuel cs
        (c :: r.1, r.2)

/-- The claim-worded expansion of a whole template. -/
def expandClaimWords (env : String → CelOutcome) (l : List Char) :
    List Char × Option String :=
  expandClaimFuel env (l.length + 1) l

/-! ## Command building (`BuildCommand`, `detectShell`)

`runtime.GOOS` and the `SHELL` environment variable are ambient inputs of
the source; they are passed explicitly. -/

/-- Membership in the character class of `standaloneCommandReg`,
`^[-_.+a-zA-Z0-9]+$`. -/
def isStandaloneChar (c : Char) : Bool :=
  c = '-' || c = '_' || c = '.' || c = '+' ||
  ('a' ≤ c && c ≤ 'z') || ('A' ≤ c && c ≤ 'Z') || ('0' ≤ c && c ≤ '9')

/-- `standaloneCommandReg.MatchString`: the whole string is one or more
characters of the class. -/
def standaloneCommandMatch (s : String) : Bool :=
  !s.data.isEmpty && s.data.all isStandaloneChar

/-- `detectShell`: the `SHELL` environment variable if non-empty, else the
fallback `/bin/sh`. -/
def detectShell (shellEnv : String) : String :=
  if shellEnv ≠ "" then shellEnv else "/bin/sh"

/-- `BuildCommand`: a standalone command is returned directly (nil args);
otherwise the string is wrapped in `cmd /c` on Windows and in
`detectShell() -c` elsewhere. The error is always nil. -/
def BuildCommand (goos shellEnv : String) (c : String) :
    String × List String × Option String :=
  if standaloneCommandMatch c then (c, [], none)
  else if goos = "windows" then ("cmd", ["/c", c], none)
  else (detectShell shellEnv, ["-c", c], none)

/-! ## Block execution (`Runner.Run`, `Runner.RunAll`) -/

/-- `parser.CodeBlock` as consumed by the runner. -/
structure CodeBlock where
  Language : String
  Command : String
  Content : String
deriving DecidableEq, Repr

/-- `Runner` configuration (the `Stdout`/`Stderr` sinks carry no decision
logic and are not modelled). `Commands` is the per-language command map,
which may be nil. -/
structure Runner where
  DefaultCommand : String
  Commands : Option (List (String × String))
deriving DecidableEq, Repr

/-- Go map indexing `m[k]`: the stored value, or the zero value `""` when
the key is absent. -/
def mapGet (m : List (String × String)) (k : String) : String :=
  (m.lookup k).getD ""

/-- The per-block variable store `\x7blang, content, i\x7d` built by `Run`. -/
structure Store where
  lang : String
  content : String
  i : Nat
deriving DecidableEq, Repr

/-- Lines 60-66 of `Run`: block command, else per-language command when the
map is non-nil, else default command. -/
def resolveCommand (r : Runner) (b : CodeBlock) : String :=
  let cmd := b.Command
  let cmd := if cmd = "" then
      match r.Commands with
      | some m => mapGet m b.Language
      | none => cmd
    else cmd
  if cmd = "" then r.DefaultCommand else cmd

/-- Command resolution as the claim words it: the explicit command if
non-empty, else the per-language command if present and non-empty, else the
default command. -/
def claimResolve (r : Runner) (b : CodeBlock) : String :=
  if b.Command ≠ "" then b.Command
  else
    let perLang := match r.Commands with
      | some m => mapGet m b.Language
      | none => ""
    if perLang ≠ "" then perLang else r.DefaultCommand

/-- What one `Run` call does, short of actually spawning the process:
skip (nil error, nothing launched), fail before launching, or launch a
child with the given program, arguments, stdin contents and environment. -/
inductive RunAction where
  | skipNoCommand
  | failExpand (e : String)
  | skipEmptyExpansion
  | failBuild (e : String)
  | exec (name : String) (args : List String) (stdin : String) (env : List String)
deriving DecidableEq, Repr

/-- `Runner.Run` (lines 58-108) up to the `execCmd.Run()` call: resolve the
command by precedence, expand it with the CEL evaluator over the store
`\x7blang, content, i\x7d`, skip when nothing remains after trimming, build
the invocation, and wire stdin (= block content) and the environment
(= parent environment plus the three `CODEBLOCK_*` variables). `cel` is the
abstract evaluator (store and expression to outcome); `osEnv` is
`os.Environ()`. -/
def runAction (cel : Store → String → CelOutcome) (goos shellEnv : String)
    (osEnv : List String) (r : Runner) (b : CodeBlock) (i : Nat) : RunAction :=
  let cmd := resolveCommand r b
  if cmd = "" then RunAction.skipNoCommand
  else
    let er := ExpandTemplate (cel ⟨b.Language, b.Content, i⟩) cmd
    match er.2 with
    | some e => RunAction.failExpand ("failed to expand template: " ++ e)
    | none =>
        let expandedCmd := trimString er.1
        if expandedCmd = "" then RunAction.skipEmptyExpansion
        else
          let bc := BuildCommand goos shellEnv expandedCmd
          match bc.2.2 with
          | some e => RunAction.failBuild ("failed to build command: " ++ e)
          | none =>
              RunAction.exec bc.1 bc.2.1 b.Content
                (osEnv ++ ["CODEBLOCK_LANG=" ++ b.Language,
                           "CODEBLOCK_CONTENT=" ++ b.Content,
                           "CODEBLOCK_INDEX=" ++ toString i])

/-- A started child process: program, arguments, stdin contents and
environment. -/
structure Launch where
  name : String
  args : List String
  stdin : String
  env : List String
deriving DecidableEq, Repr

/-- One `Run` call observed from outside: the processes it launched and the
error it returned. `proc` abstracts `execCmd.Run()`: the launch/exit error
of a started child, or `none` on success. -/
def runStep (proc : Launch → Option String) (cel : Store → String → CelOutcome)
    (goos shellEnv : String) (osEnv : List String) (r : Runner) (b : CodeBlock)
    (i : Nat) : List Launch × Option String :=
  match runAction cel goos shellEnv osEnv r b i with
  | RunAction.skipNoCommand => ([], none)
  | RunAction.skipEmptyExpansion => ([], none)
  | RunAction.failExpand e => ([], some e)
  | RunAction.failBuild e => ([], some e)
  | RunAction.exec n a s env => ([⟨n, a, s, env⟩], proc ⟨n, a, s, env⟩)

/-- `Runner.RunAll` starting from block index `i`: run each block in order,
wrapping the first error as `failed to execute code block %d` with the
1-based index, and stopping there. -/
def runAllFrom (proc : Launch → Option String) (cel : Store → String → CelOutcome)
    (goos shellEnv : String) (osEnv : List String) (r : Runner) (i : Nat) :
    List CodeBlock → List Launch × Option String
  | [] => ([], none)
  | b :: bs =>
      let s := runStep proc cel goos shellEnv osEnv r b i
      match s.2 with
      | some e =>
          (s.1, some ("failed to execute code block " ++ toString (i + 1) ++ ": " ++ e))
      | none =>
          let rest := runAllFrom proc cel goos shellEnv osEnv r (i + 1) bs
          (s.1 ++ rest.1, rest.2)

/-- `Runner.RunAll` (lines 112-119). -/
def RunAll (proc : Launch → Option String) (cel : Store → String → CelOutcome)
    (goos shellEnv : String) (osEnv : List String) (r : Runner)
    (blocks : List CodeBlock) : List Launch × Option String :=
  runAllFrom proc cel goos shellEnv osEnv r 0 blocks

/-! ## Lemmas about the regex scan -/

theorem tokenize_nil : tokenize [] = [] := rfl

theorem tokenize_cons_ne (c : Char) (l : List Char) (hc : c ≠ '\x7b') :
    tokenize (c :: l) = Seg.lit c :: tokenize l := by
  show tokenizeFuel (l.length + 2) (c :: l) = Seg.lit c :: tokenizeFuel (l.length + 1) l
  cases l with
  | nil => simp [tokenizeFuel, hc]
  | cons d ds =>
      by_cases hd : d = '\x7b'
      · subst hd
        simp [tokenizeFuel, hc]
      · simp [tokenizeFuel, hc, hd]

theorem tokenize_open_some (rest raw tail : List Char)
    (h : spanSplit rest = some (raw, tail)) :
    tokenize ('\x7b' :: '\x7b' :: rest) = Seg.span raw :: tokenize tail := by
  show (match spanSplit rest with
        | some (raw, tail) => Seg.span raw :: tokenizeFuel (rest.length + 2) tail
        | none => Seg.lit '\x7b' :: tokenizeFuel (rest.length + 2) ('\x7b' :: rest))
      = Seg.span raw :: tokenize tail
  rw [h]
  have hl := spanSplit_length h
  show Seg.span raw :: tokenizeFuel (rest.length + 2) tail = _
  rw [tokenizeFuel_congr (rest.length + 2) (tail.length + 1) tail (by omega) (by omega)]
  rfl

theorem tokenize_open_none (rest : List Char) (h : spanSplit rest = none) :
    tokenize ('\x7b' :: '\x7b' :: rest) =
      Seg.lit '\x7b' :: tokenize ('\x7b' :: rest) := by
  show (match spanSplit rest with
        | some (raw, tail) => Seg.span raw :: tokenizeFuel (rest.length + 2) tail
        | none => Seg.lit '\x7b' :: tokenizeFuel (rest.length + 2) ('\x7b' :: rest))
      = Seg.lit '\x7b' :: tokenize ('\x7b' :: rest)
  rw [h]
  rfl

/-- Characters that cannot open a span stay literal. -/
theorem tokenize_append_ne (pre l : List Char)
    (h : ∀ c ∈ pre, c ≠ '\x7b') :
    tokenize (pre ++ l) = pre.map Seg.lit ++ tokenize l := by
  induction pre with
  | nil => simp
  | cons c cs ih =>
      have hc : c ≠ '\x7b' := h c (List.mem_cons_self c cs)
      have hcs : ∀ d ∈ cs, d ≠ '\x7b' := fun d hd => h d (List.mem_cons_of_mem c hd)
      simp only [List.cons_append, List.map_cons]
      rw [tokenize_cons_ne _ _ hc, ih hcs]

theorem takeWhile_middle (l1 l2 : List Char) (b : Char)
    (h1 : ∀ a ∈ l1, a ≠ '\x7d') (hb : b = '\x7d') :
    (l1 ++ b :: l2).takeWhile (fun c => c ≠ '\x7d') = l1 := by
  subst hb
  induction l1 with
  | nil => rfl
  | cons a l ih =>
      have ha : a ≠ '\x7d' := h1 a (List.mem_cons_self a l)
      have hl : ∀ a ∈ l, a ≠ '\x7d' := fun x hx => h1 x (List.mem_cons_of_mem a hx)
      rw [List.cons_append, List.takeWhile_cons, if_pos (by simp [ha]), ih hl]

theorem dropWhile_middle (l1 l2 : List Char) (b : Char)
    (h1 : ∀ a ∈ l1, a ≠ '\x7d') (hb : b = '\x7d') :
    (l1 ++ b :: l2).dropWhile (fun c => c ≠ '\x7d') = b :: l2 := by
  subst hb
  induction l1 with
  | nil => rfl
  | cons a l ih =>
      have ha : a ≠ '\x7d' := h1 a (List.mem_cons_self a l)
      have hl : ∀ a ∈ l, a ≠ '\x7d' := fun x hx => h1 x (List.mem_cons_of_mem a hx)
      rw [List.cons_append, List.dropWhile_cons, if_pos (by simp [ha]), ih hl]

/-- A well-formed span (nonempty, no closing brace inside) is matched, and
the scan resumes right after its closing `\x7d\x7d`. -/
theorem spanSplit_exact (raw post : List Char) (h2 : raw ≠ [])
    (h3 : ∀ c ∈ raw, c ≠ '\x7d') :
    spanSplit (raw ++ '\x7d' :: '\x7d' :: post) = some (raw, post) := by
  unfold spanSplit
  rw [dropWhile_middle raw ('\x7d' :: post) '\x7d' h3 rfl,
      takeWhile_middle raw ('\x7d' :: post) '\x7d' h3 rfl]
  simp [h2]

/-! ## Lemmas about the substitution fold -/

theorem expandSegs_lit_append (env : String → CelOutcome) (pre : List Char)
    (segs : List Seg) :
    expandSegs env (pre.map Seg.lit ++ segs) =
      (pre ++ (expandSegs env segs).1, (expandSegs env segs).2) := by
  induction pre with
  | nil => simp
  | cons c cs ih => simp [expandSegs, ih]

theorem expandSegs_all_lit (env : String → CelOutcome) (l : List Char) :
    expandSegs env (l.map Seg.lit) = (l, none) := by
  have := expandSegs_lit_append env l []
  simpa [expandSegs] using this

theorem spanErrors_nil (env : String → CelOutcome) : spanErrors env [] = [] := rfl

theorem spanErrors_lit (env : String → CelOutcome) (c : Char) (segs : List Seg) :
    spanErrors env (Seg.lit c :: segs) = spanErrors env segs := rfl

theorem spanErrors_span (env : String → CelOutcome) (raw : List Char) (segs : List Seg) :
    spanErrors env (Seg.span raw :: segs) =
      (match (spanResult env raw).2 with
       | some er => er :: spanErrors env segs
       | none => spanErrors env segs) := by
  simp only [spanErrors, List.filterMap_cons]
  cases (spanResult env raw).2 <;> rfl

/-- The recorded error is the last failing span's error. -/
theorem expandSegs_err (env : String → CelOutcome) (segs : List Seg) :
    (expandSegs env segs).2 = (spanErrors env segs).getLast? := by
  induction segs with
  | nil => rfl
  | cons s segs ih =>
      cases s with
      | lit c =>
          rw [spanErrors_lit]
          show (expandSegs env segs).2 = _
          exact ih
      | span raw =>
          rw [spanErrors_span]
          show (match (expandSegs env segs).2 with
                | some e => some e
                | none => (spanResult env raw).2) = _
          cases hr : (spanResult env raw).2 with
          | none =>
              cases hrest : (expandSegs env segs).2 with
              | none => rw [hrest] at ih; exact ih
              | some e' => rw [hrest] at ih; exact ih
          | some er =>
              cases hrest : (expandSegs env segs).2 with
              | none =>
                  rw [hrest] at ih
                  rw [List.getLast?_eq_none_iff.mp ih.symm]
                  rfl
              | some e' =>
                  rw [hrest] at ih
                  cases hsp : spanErrors env segs with
                  | nil => rw [hsp] at ih; simp at ih
                  | cons x xs =>
                      rw [hsp] at ih
                      show some e' = (er :: x :: xs).getLast?
                      rw [List.getLast?_cons_cons]
                      exact ih

/-- An evaluator that always succeeds records no error. -/
theorem expandSegs_ok (f : String → String) (segs : List Seg) :
    (expandSegs (fun e => CelOutcome.ok (f e)) segs).2 = none := by
  induction segs with
  | nil => simp [expandSegs]
  | cons s segs ih =>
      cases s with
      | lit c => simp [expandSegs, ih]
      | span raw => simp [expandSegs, spanResult, ih]

/-- `ExpandTemplate` on an explicitly built string, with the `data`
projection reduced. -/
theorem ExpandTemplate_mk (env : String → CelOutcome) (l : List Char) :
    ExpandTemplate env (String.mk l) =
      (match (expandSegs env (tokenize l)).2 with
       | some e => ("", some e)
       | none => (String.mk (expandSegs env (tokenize l)).1, none)) := rfl

theorem tokenize_lb_cons_ne (d : Char) (l : List Char) (hd : d ≠ '\x7b') :
    tokenize ('\x7b' :: d :: l) = Seg.lit '\x7b' :: tokenize (d :: l) := by
  show tokenizeFuel (l.length + 3) ('\x7b' :: d :: l)
      = Seg.lit '\x7b' :: tokenizeFuel (l.length + 2) (d :: l)
  simp [tokenizeFuel, hd]

theorem tokenize_all_ne (l : List Char) (h : ∀ c ∈ l, c ≠ '\x7b') :
    tokenize l = l.map Seg.lit := by
  have := tokenize_append_ne l [] h
  simpa [tokenize_nil] using this

/-! ## Concrete scenarios used by counterexamples and witnesses -/

/-- An evaluator in which every expression fails to compile, as cel-go does
for any expression referencing an identifier outside the declared store
`\x7blang, content, i\x7d`; the message names the expression, so different
spans fail with different errors. -/
def celUndeclared : String → CelOutcome :=
  fun e => CelOutcome.compileErr ("undeclared reference to " ++ e)

/-- The template `\x7b\x7bx\x7d\x7d \x7b\x7by\x7d\x7d`: two spans, both
failing under `celUndeclared`. -/
def tplXY : String := String.mk
  ['\x7b', '\x7b', 'x', '\x7d', '\x7d', ' ', '\x7b', '\x7b', 'y', '\x7d', '\x7d']

/-- An evaluator mapping every expression to the value `"X"`. -/
def celConstX : String → CelOutcome := fun _ => CelOutcome.ok "X"

/-- The template `\x7b\x7ba\x7db\x7d\x7d`: a `\x7b\x7b` whose content up to
the next `\x7d\x7d` contains a lone `\x7d`. -/
def tplBrace : String := String.mk ['\x7b', '\x7b', 'a', '\x7d', 'b', '\x7d', '\x7d']

/-! ## Claims C1, C2, C9: template expansion -/

/-- C1 (amended): whenever `ExpandTemplate` returns an error, the result
string is empty (no partially-substituted output), and the error is the
`ExpressionError` of the LAST failing span — not the first: the Go callback
keeps scanning after a failure and each later failing span overwrites
`expandErr`. -/
theorem c1_error_is_last_failing_span (env : String → CelOutcome) (t : String) :
    (ExpandTemplate env t).2 = (spanErrors env (tokenize t.data)).getLast? ∧
    (∀ e, (ExpandTemplate env t).2 = some e → (ExpandTemplate env t).1 = "") := by
  have hE2 : (ExpandTemplate env t).2 = (expandSegs env (tokenize t.data)).2 := by
    show (match (expandSegs env (tokenize t.data)).2 with
          | some e => (("" : String), some e)
          | none => (String.mk (expandSegs env (tokenize t.data)).1, none)).2
        = (expandSegs env (tokenize t.data)).2
    cases (expandSegs env (tokenize t.data)).2 <;> rfl
  constructor
  · rw [hE2, expandSegs_err]
  · intro e he
    rw [hE2] at he
    show (match (expandSegs env (tokenize t.data)).2 with
          | some e => (("" : String), some e)
          | none => (String.mk (expandSegs env (tokenize t.data)).1, none)).1 = ""
    rw [he]

/-- C1 counterexample: in `\x7b\x7bx\x7d\x7d \x7b\x7by\x7d\x7d` under an
evaluator failing on both spans, the first (leftmost) failing span is
`\x7b\x7bx\x7d\x7d`, yet the returned error is the one for
`\x7b\x7by\x7d\x7d`, which differs from the first span's error. -/
theorem c1_counterexample :
    ExpandTemplate celUndeclared tplXY
        = ("", some (compileErrMsg ['y'] "undeclared reference to y")) ∧
    (spanErrors celUndeclared (tokenize tplXY.data)).head?
        = some (compileErrMsg ['x'] "undeclared reference to x") ∧
    compileErrMsg ['y'] "undeclared reference to y"
        ≠ compileErrMsg ['x'] "undeclared reference to x" :=
  ⟨rfl, rfl, by decide⟩

/-- C1 witness: the amended theorem applied to the concrete failing
template. -/
theorem c1_witness :
    (ExpandTemplate celUndeclared tplXY).2
        = some (compileErrMsg ['y'] "undeclared reference to y") ∧
    (ExpandTemplate celUndeclared tplXY).1 = "" :=
  ⟨rfl, (c1_error_is_last_failing_span celUndeclared tplXY).2
          (compileErrMsg ['y'] "undeclared reference to y") rfl⟩

/-- C2 (amended): `ExpandTemplate` finds every non-overlapping span of the
form `\x7b\x7b`, a nonempty run of characters none of which is `\x7d`, then
`\x7d\x7d`; the span's content is trimmed of surrounding whitespace, handed
to the evaluator, and the whole span (delimiters included) is replaced by
the evaluated result; the scan then continues after the span. A span whose
content would be empty or contain `\x7d` is NOT recognized (left as
literal text), which is where the original claim fails. -/
theorem c2_spans_found_trimmed_substituted (f : String → String)
    (pre raw post : List Char)
    (h1 : ∀ c ∈ pre, c ≠ '\x7b') (h2 : raw ≠ []) (h3 : ∀ c ∈ raw, c ≠ '\x7d') :
    ExpandTemplate (fun e => CelOutcome.ok (f e))
        (String.mk (pre ++ '\x7b' :: '\x7b' :: (raw ++ '\x7d' :: '\x7d' :: post)))
      = (String.mk (pre ++ (f (String.mk (trimSpace raw))).data ++
          (ExpandTemplate (fun e => CelOutcome.ok (f e)) (String.mk post)).1.data),
         none) := by
  have htok : tokenize (pre ++ '\x7b' :: '\x7b' :: (raw ++ '\x7d' :: '\x7d' :: post))
      = pre.map Seg.lit ++ Seg.span raw :: tokenize post := by
    rw [tokenize_append_ne pre _ h1,
        tokenize_open_some _ _ _ (spanSplit_exact raw post h2 h3)]
  have hpost : (expandSegs (fun e => CelOutcome.ok (f e)) (tokenize post)).2 = none :=
    expandSegs_ok f _
  have hspan : expandSegs (fun e => CelOutcome.ok (f e)) (Seg.span raw :: tokenize post)
      = ((f (String.mk (trimSpace raw))).data
           ++ (expandSegs (fun e => CelOutcome.ok (f e)) (tokenize post)).1, none) := by
    show ((spanResult (fun e => CelOutcome.ok (f e)) raw).1
            ++ (expandSegs (fun e => CelOutcome.ok (f e)) (tokenize post)).1,
          match (expandSegs (fun e => CelOutcome.ok (f e)) (tokenize post)).2 with
          | some e => some e
          | none => (spanResult (fun e => CelOutcome.ok (f e)) raw).2) = _
    rw [hpost]
    rfl
  rw [ExpandTemplate_mk, htok, expandSegs_lit_append, hspan]
  rw [ExpandTemplate_mk]
  rw [hpost]
  simp [List.append_assoc]

/-- C2 counterexample: in `\x7b\x7ba\x7db\x7d\x7d` the claim's span (from
`\x7b\x7b` to the next `\x7d\x7d`) has content `a\x7db`; the claim predicts
it is evaluated and replaced (giving `X` under a constant evaluator), but
the code leaves the template unchanged because `a\x7db` contains `\x7d` and
so never matches the regex. -/
theorem c2_counterexample :
    ExpandTemplate celConstX tplBrace = (tplBrace, none) ∧
    expandClaimWords celConstX tplBrace.data = ("X".data, none) ∧
    tplBrace ≠ "X" :=
  ⟨rfl, rfl, by decide⟩

/-- C2 witness: the amended theorem applied to
`echo \x7b\x7b lang \x7d\x7d!` under an evaluator sending `lang` to `go`. -/
theorem c2_witness :
    (∀ c ∈ ['e', 'c', 'h', 'o', ' '], c ≠ '\x7b') ∧
    ([' ', 'l', 'a', 'n', 'g', ' '] : List Char) ≠ [] ∧
    (∀ c ∈ [' ', 'l', 'a', 'n', 'g', ' '], c ≠ '\x7d') ∧
    ExpandTemplate (fun e => CelOutcome.ok ((fun x => "v:" ++ x) e))
        (String.mk (['e', 'c', 'h', 'o', ' '] ++ '\x7b' :: '\x7b' ::
          ([' ', 'l', 'a', 'n', 'g', ' '] ++ '\x7d' :: '\x7d' :: ['!'])))
      = (String.mk (['e', 'c', 'h', 'o', ' ']
            ++ ((fun x => "v:" ++ x) (String.mk (trimSpace [' ', 'l', 'a', 'n', 'g', ' ']))).data
            ++ (ExpandTemplate (fun e => CelOutcome.ok ((fun x => "v:" ++ x) e))
                  (String.mk ['!'])).1.data), none) :=
  ⟨by decide, by decide, by decide,
    c2_spans_found_trimmed_substituted (fun x => "v:" ++ x) _ _ _
      (by decide) (by decide) (by decide)⟩

/-- C9: a `\x7b\x7b\x7d\x7d` with no surrounding braces is not an
expression span: the template comes back unchanged with no error, for every
evaluator — even one that fails on every expression. -/
theorem c9_empty_span_left_verbatim (env : String → CelOutcome)
    (pre post : List Char)
    (h1 : ∀ c ∈ pre, c ≠ '\x7b') (h2 : ∀ c ∈ post, c ≠ '\x7b') :
    ExpandTemplate env
        (String.mk (pre ++ '\x7b' :: '\x7b' :: '\x7d' :: '\x7d' :: post))
      = (String.mk (pre ++ '\x7b' :: '\x7b' :: '\x7d' :: '\x7d' :: post), none) := by
  have hss : spanSplit ('\x7d' :: '\x7d' :: post) = none := rfl
  have hpost2 : ∀ c ∈ '\x7d' :: '\x7d' :: post, c ≠ '\x7b' := by
    intro c hc
    rcases List.mem_cons.mp hc with rfl | hc
    · decide
    rcases List.mem_cons.mp hc with rfl | hc
    · decide
    exact h2 c hc
  have htok : tokenize (pre ++ '\x7b' :: '\x7b' :: '\x7d' :: '\x7d' :: post)
      = (pre ++ '\x7b' :: '\x7b' :: '\x7d' :: '\x7d' :: post).map Seg.lit := by
    rw [tokenize_append_ne pre _ h1, tokenize_open_none _ hss,
        tokenize_lb_cons_ne '\x7d' _ (by decide),
        tokenize_all_ne ('\x7d' :: '\x7d' :: post) hpost2]
    simp [List.map_append]
  rw [ExpandTemplate_mk, htok, expandSegs_all_lit]

/-- C9 witness: `a\x7b\x7b\x7d\x7db` is returned verbatim with no error,
under an evaluator that fails on every expression. -/
theorem c9_witness :
    (∀ c ∈ ['a'], c ≠ '\x7b') ∧ (∀ c ∈ ['b'], c ≠ '\x7b') ∧
    ExpandTemplate celUndeclared
        (String.mk (['a'] ++ '\x7b' :: '\x7b' :: '\x7d' :: '\x7d' :: ['b']))
      = (String.mk (['a'] ++ '\x7b' :: '\x7b' :: '\x7d' :: '\x7d' :: ['b']), none) :=
  ⟨by decide, by decide,
    c9_empty_span_left_verbatim celUndeclared ['a'] ['b'] (by decide) (by decide)⟩

/-! ## Claims C5, C8: command building -/

/-- The claim's character class `[A-Za-z0-9_.+-]+`, stated through the
standard character predicates. -/
def claimCommandChar (c : Char) : Bool :=
  c.isAlpha || c.isDigit || c = '_' || c = '.' || c = '+' || c = '-'

theorem isStandaloneChar_eq_claim (c : Char) :
    isStandaloneChar c = claimCommandChar c := by
  rw [Bool.eq_iff_iff]
  simp only [isStandaloneChar, claimCommandChar, Char.isAlpha, Char.isUpper,
    Char.isLower, Char.isDigit, Bool.or_eq_true, Bool.and_eq_true,
    decide_eq_true_eq]
  tauto

/-- C5: `BuildCommand` returns the string itself with no arguments exactly
when the whole string is one or more characters of `[A-Za-z0-9_.+-]`;
otherwise on Windows it returns `cmd` with `/c`, and elsewhere the `SHELL`
environment variable if non-empty (else `/bin/sh`) with `-c`. -/
theorem c5_buildCommand_classification (goos shellEnv c : String) :
    BuildCommand goos shellEnv c =
      if c.data ≠ [] ∧ ∀ ch ∈ c.data, claimCommandChar ch then (c, [], none)
      else if goos = "windows" then ("cmd", ["/c", c], none)
      else ((if shellEnv ≠ "" then shellEnv else "/bin/sh"), ["-c", c], none) := by
  have hm : standaloneCommandMatch c = true ↔
      (c.data ≠ [] ∧ ∀ ch ∈ c.data, claimCommandChar ch) := by
    simp [standaloneCommandMatch, List.all_eq_true, isStandaloneChar_eq_claim,
      List.isEmpty_iff]
  unfold BuildCommand detectShell
  by_cases hsm : standaloneCommandMatch c = true
  · rw [if_pos hsm, if_pos (hm.mp hsm)]
  · rw [if_neg hsm, if_neg (fun hc => hsm (hm.mpr hc))]

/-- C8: the error component of `BuildCommand` is nil on every input. -/
theorem c8_buildCommand_never_fails (goos shellEnv c : String) :
    (BuildCommand goos shellEnv c).2.2 = none := by
  unfold BuildCommand detectShell
  by_cases h1 : standaloneCommandMatch c = true
  · rw [if_pos h1]
  · rw [if_neg h1]
    by_cases h2 : goos = "windows"
    · rw [if_pos h2]
    · rw [if_neg h2]

/-! ## Claims C3, C6, C7, C10: one block's execution -/

/-- C3: `Run` resolves the command by the claimed precedence (explicit if
non-empty, else per-language if present and non-empty, else default), and
when the resolved string is empty it launches nothing and returns no
error. -/
theorem c3_precedence_and_empty_skip (proc : Launch → Option String)
    (cel : Store → String → CelOutcome) (goos shellEnv : String)
    (osEnv : List String) (r : Runner) (b : CodeBlock) (i : Nat) :
    resolveCommand r b = claimResolve r b ∧
    (resolveCommand r b = "" →
      runStep proc cel goos shellEnv osEnv r b i = ([], none)) := by
  constructor
  · unfold resolveCommand claimResolve
    by_cases hb : b.Command = ""
    · simp only [hb, if_pos rfl, ite_not]
      cases r.Commands with
      | none => simp
      | some m =>
          by_cases hm : mapGet m b.Language = ""
          · simp [hm]
          · simp [hm]
    · simp [hb]
  · intro h
    have ha : runAction cel goos shellEnv osEnv r b i = RunAction.skipNoCommand := by
      unfold runAction
      rw [h]
      rfl
    unfold runStep
    rw [ha]

/-- C3 witness: a block with no explicit command, on a runner with no
per-language map and an empty default, resolves to the empty command and is
skipped with no launch and no error. -/
theorem c3_witness :
    resolveCommand ⟨"", none⟩ ⟨"go", "", "body"⟩ = "" ∧
    runStep (fun _ => none) (fun _ _ => CelOutcome.ok "") "linux" "" []
        ⟨"", none⟩ ⟨"go", "", "body"⟩ 0 = ([], none) :=
  ⟨rfl, (c3_precedence_and_empty_skip (fun _ => none) (fun _ _ => CelOutcome.ok "")
      "linux" "" [] ⟨"", none⟩ ⟨"go", "", "body"⟩ 0).2 rfl⟩

/-- C10: a nil per-language map behaves exactly like an empty map, and
resolution falls through from the explicit command to the default. -/
theorem c10_nil_map_like_empty (proc : Launch → Option String)
    (cel : Store → String → CelOutcome) (goos shellEnv : String)
    (osEnv : List String) (dc : String) (b : CodeBlock) (i : Nat) :
    runStep proc cel goos shellEnv osEnv ⟨dc, none⟩ b i
        = runStep proc cel goos shellEnv osEnv ⟨dc, some []⟩ b i ∧
    resolveCommand ⟨dc, none⟩ b = (if b.Command = "" then dc else b.Command) := by
  have hres : resolveCommand ⟨dc, none⟩ b = resolveCommand ⟨dc, some []⟩ b := by
    unfold resolveCommand mapGet
    by_cases hb : b.Command = "" <;> simp [hb, List.lookup]
  constructor
  · unfold runStep runAction
    rw [hres]
  · unfold resolveCommand
    by_cases hb : b.Command = "" <;> simp [hb]

/-- C6: when the resolved command expands with no error and trims to the
empty string, `Run` launches nothing and returns no error. -/
theorem c6_empty_expansion_skips (proc : Launch → Option String)
    (cel : Store → String → CelOutcome) (goos shellEnv : String)
    (osEnv : List String) (r : Runner) (b : CodeBlock) (i : Nat) (s : String)
    (hexp : ExpandTemplate (cel ⟨b.Language, b.Content, i⟩) (resolveCommand r b)
        = (s, none))
    (htrim : trimString s = "") :
    runStep proc cel goos shellEnv osEnv r b i = ([], none) := by
  have ha : runAction cel goos shellEnv osEnv r b i = RunAction.skipNoCommand ∨
      runAction cel goos shellEnv osEnv r b i = RunAction.skipEmptyExpansion := by
    unfold runAction
    by_cases h0 : resolveCommand r b = ""
    · left
      rw [if_pos h0]
    · right
      rw [if_neg h0, hexp]
      show (if trimString s = "" then RunAction.skipEmptyExpansion else _)
          = RunAction.skipEmptyExpansion
      rw [if_pos htrim]
  unfold runStep
  rcases ha with ha | ha <;> rw [ha]

/-- C6 witness: a default command of a single space expands (with no spans)
to itself, trims to empty, and the block is skipped. -/
theorem c6_witness :
    ExpandTemplate ((fun _ _ => CelOutcome.ok "v") (⟨"go", "x", 0⟩ : Store))
        (resolveCommand ⟨" ", none⟩ ⟨"go", "", "x"⟩) = (" ", none) ∧
    trimString " " = "" ∧
    runStep (fun _ => none) (fun _ _ => CelOutcome.ok "v") "linux" "" []
        ⟨" ", none⟩ ⟨"go", "", "x"⟩ 0 = ([], none) :=
  ⟨rfl, rfl,
    c6_empty_expansion_skips (fun _ => none) (fun _ _ => CelOutcome.ok "v")
      "linux" "" [] ⟨" ", none⟩ ⟨"go", "", "x"⟩ 0 " " rfl rfl⟩

/-- C7: whenever `Run` launches a process, the child's stdin is exactly the
block's content, and its environment is the parent environment followed by
exactly the three `CODEBLOCK_*` additions, with the index rendered in
decimal. -/
theorem c7_exec_stdin_env (cel : Store → String → CelOutcome)
    (goos shellEnv : String) (osEnv : List String) (r : Runner) (b : CodeBlock)
    (i : Nat) (n : String) (a : List String) (s : String) (env : List String)
    (h : runAction cel goos shellEnv osEnv r b i = RunAction.exec n a s env) :
    s = b.Content ∧
    env = osEnv ++ ["CODEBLOCK_LANG=" ++ b.Language,
                    "CODEBLOCK_CONTENT=" ++ b.Content,
                    "CODEBLOCK_INDEX=" ++ toString i] := by
  simp only [runAction] at h
  split at h
  · cases h
  · split at h
    · cases h
    · split at h
      · cases h
      · split at h
        · cases h
        · cases h
          exact ⟨rfl, rfl⟩

/-- C7 witness: a concrete launched block receives its content on stdin and
the three `CODEBLOCK_*` additions after the parent environment. -/
theorem c7_witness :
    runAction (fun _ _ => CelOutcome.ok "v") "linux" "" ["PATH=/bin"]
        ⟨"cat", none⟩ ⟨"go", "", "hi"⟩ 5
      = RunAction.exec "cat" [] "hi"
          (["PATH=/bin"] ++ ["CODEBLOCK_LANG=go", "CODEBLOCK_CONTENT=hi",
            "CODEBLOCK_INDEX=5"]) ∧
    ("hi" = (⟨"go", "", "hi"⟩ : CodeBlock).Content ∧
      ["PATH=/bin"] ++ ["CODEBLOCK_LANG=go", "CODEBLOCK_CONTENT=hi",
        "CODEBLOCK_INDEX=5"]
        = ["PATH=/bin"] ++ ["CODEBLOCK_LANG=" ++ "go", "CODEBLOCK_CONTENT=" ++ "hi",
            "CODEBLOCK_INDEX=" ++ toString 5]) :=
  ⟨rfl, c7_exec_stdin_env (fun _ _ => CelOutcome.ok "v") "linux" "" ["PATH=/bin"]
    ⟨"cat", none⟩ ⟨"go", "", "hi"⟩ 5 "cat" [] "hi" _ rfl⟩

/-! ## Claim C4: `RunAll` is sequential and fail-fast -/

/-- While every block succeeds, `runAllFrom` processes an appended batch by
finishing the first part and continuing with the block index advanced. -/
theorem runAllFrom_append (proc : Launch → Option String)
    (cel : Store → String → CelOutcome) (goos shellEnv : String)
    (osEnv : List String) (r : Runner) (pre rest : List CodeBlock) :
    ∀ i, (runAllFrom proc cel goos shellEnv osEnv r i pre).2 = none →
      runAllFrom proc cel goos shellEnv osEnv r i (pre ++ rest)
        = ((runAllFrom proc cel goos shellEnv osEnv r i pre).1
             ++ (runAllFrom proc cel goos shellEnv osEnv r (i + pre.length) rest).1,
           (runAllFrom proc cel goos shellEnv osEnv r (i + pre.length) rest).2) := by
  induction pre with
  | nil =>
      intro i h
      simp [runAllFrom]
  | cons b bs ih =>
      intro i h
      cases hs : (runStep proc cel goos shellEnv osEnv r b i).2 with
      | some e =>
          exfalso
          simp [runAllFrom, hs] at h
      | none =>
          have h' : (runAllFrom proc cel goos shellEnv osEnv r (i + 1) bs).2 = none := by
            simpa [runAllFrom, hs] using h
          simp only [List.cons_append, runAllFrom, hs, List.append_eq]
          rw [ih (i + 1) h']
          simp only [List.length_cons]
          rw [show i + (bs.length + 1) = i + 1 + bs.length from by omega]
          simp [List.append_assoc]

/-- C4: in a batch where every block before position `k` succeeds and the
block at `k` fails, `RunAll` performs the earlier blocks' launches and the
failing block's launch attempt, never starts any later block (the result
does not depend on them), and returns the failing block's error wrapped
with the 1-based index `k + 1` (the internal index `k` being 0-based). -/
theorem c4_runAll_fail_fast (proc : Launch → Option String)
    (cel : Store → String → CelOutcome) (goos shellEnv : String)
    (osEnv : List String) (r : Runner) (pre : List CodeBlock) (b : CodeBlock)
    (post : List CodeBlock) (e : String)
    (h1 : (runAllFrom proc cel goos shellEnv osEnv r 0 pre).2 = none)
    (h2 : (runStep proc cel goos shellEnv osEnv r b pre.length).2 = some e) :
    RunAll proc cel goos shellEnv osEnv r (pre ++ b :: post)
      = ((runAllFrom proc cel goos shellEnv osEnv r 0 pre).1
           ++ (runStep proc cel goos shellEnv osEnv r b pre.length).1,
         some ("failed to execute code block " ++ toString (pre.length + 1)
                 ++ ": " ++ e)) := by
  unfold RunAll
  rw [runAllFrom_append proc cel goos shellEnv osEnv r pre (b :: post) 0 h1]
  simp only [Nat.zero_add]
  simp [runAllFrom, h2]

/-- A concrete evaluator for the C4 witness: the expression `x` fails to
compile, everything else evaluates to itself. -/
def celW : Store → String → CelOutcome := fun _ e =>
  if e = "x" then CelOutcome.compileErr "boom" else CelOutcome.ok e

/-- The template `\x7b\x7bx\x7d\x7d`. -/
def tplX : String := String.mk ['\x7b', '\x7b', 'x', '\x7d', '\x7d']

/-- The error `Run` returns for `tplX` under `celW`. -/
def eBoom : String := "failed to expand template: " ++ compileErrMsg ['x'] "boom"

/-- C4 witness: with a successful first block, a second block whose command
fails to expand, and a third block present, `RunAll` runs the first block,
returns the second block's error wrapped with 1-based index 2, and the
result does not involve the third block. -/
theorem c4_witness :
    (runAllFrom (fun _ => none) celW "linux" "" [] ⟨"", none⟩ 0
        [⟨"go", "cat", "c1"⟩]).2 = none ∧
    (runStep (fun _ => none) celW "linux" "" [] ⟨"", none⟩
        ⟨"py", tplX, "c2"⟩ 1).2 = some eBoom ∧
    RunAll (fun _ => none) celW "linux" "" [] ⟨"", none⟩
        ([⟨"go", "cat", "c1"⟩] ++ ⟨"py", tplX, "c2"⟩ :: [⟨"sh", "cat", "c3"⟩])
      = ((runAllFrom (fun _ => none) celW "linux" "" [] ⟨"", none⟩ 0
            [⟨"go", "cat", "c1"⟩]).1
           ++ (runStep (fun _ => none) celW "linux" "" [] ⟨"", none⟩
                 ⟨"py", tplX, "c2"⟩ 1).1,
         some ("failed to execute code block " ++ toString (1 + 1) ++ ": " ++ eBoom)) :=
  ⟨rfl, rfl,
    c4_runAll_fail_fast (fun _ => none) celW "linux" "" [] ⟨"", none⟩
      [⟨"go", "cat", "c1"⟩] ⟨"py", tplX, "c2"⟩ [⟨"sh", "cat", "c3"⟩] eBoom rfl rfl⟩

end Runblock
